import Mathlib

/-!
Verification of the massa-web3 account key-management and
operation-confirmation subsystem.

The definitions below are a shallow embedding of
`src/web3/SmartContractsClient.ts` (operation status classification and the
confirmation polling loop) and `src/web3/WalletClient.ts` (wallet account
management and message signing).  External cryptographic collaborators
(base-58 codec, blake3 hash, schnorr sign/verify from the noble libraries)
are modelled as an explicit `Crypto` record of functions, since the code
treats them as opaque primitives.  Remote lookups performed by the polling
loop are modelled as a trace of lookup outcomes.
-/

/-- `EOperationStatus` from `src/interfaces/EOperationStatus`. -/
inductive EOperationStatus
  | INCLUDED_PENDING
  | AWAITING_INCLUSION
  | FINAL
  | INCONSISTENT
  | NOT_FOUND
deriving DecidableEq, Repr

/-- One operation record returned by `publicApiClient.getOperations`
(`IOperationData`): only the fields read by `getOperationStatus`. -/
structure IOperationData where
  is_final : Bool
  in_blocks : List String
  in_pool : Bool
deriving DecidableEq, Repr

/-- `SmartContractsClient.getOperationStatus`: the remote lookup result is
either missing (`none`, the falsy `!operationData` check) or a list of
records; classification reads only the first record, in strict priority
order final / in-blocks / in-pool / inconsistent. -/
def getOperationStatus (operationData : Option (List IOperationData)) : EOperationStatus :=
  match operationData with
  | none => .NOT_FOUND
  | some records =>
    match records with
    | [] => .NOT_FOUND
    | opData :: _ =>
      if opData.is_final then .FINAL
      else if opData.in_blocks.length > 0 then .INCLUDED_PENDING
      else if opData.in_pool then .AWAITING_INCLUSION
      else .INCONSISTENT

/-- Outcome of one remote `getOperationStatus` call inside the polling loop:
either a classified status, or a thrown exception (identified by a number so
that re-raising "the last error" is observable). -/
inductive LookupOutcome
  | ok (s : EOperationStatus)
  | err (e : Nat)
deriving DecidableEq, Repr

/-- Result of running `awaitRequiredOperationStatus` against a finite trace
of lookup outcomes.  `pending` means the trace was exhausted with the loop
still running (carrying the two counters at that point). -/
inductive AwaitResult
  | returned (s : EOperationStatus)
  | rethrown (e : Nat)
  | timedOut
  | pending (errCounter pendingCounter : Nat)
deriving DecidableEq, Repr

/-- The body of `SmartContractsClient.awaitRequiredOperationStatus`, one
loop iteration per trace element, also returning how many lookups were
attempted.  Mirrors the source exactly: `status` defaults to `NOT_FOUND`;
a thrown lookup increments `errCounter` and re-raises the exception once
`errCounter` exceeds 100 (the counter is never reset); the
`status == requiredStatus` check runs even after a caught exception; every
iteration that does not return increments `pendingCounter`, and exceeding
1000 raises the timeout error. -/
def awaitFrom (requiredStatus : EOperationStatus) : Nat → Nat → List LookupOutcome → AwaitResult × Nat
  | errCounter, pendingCounter, [] => (.pending errCounter pendingCounter, 0)
  | errCounter, pendingCounter, .err e :: rest =>
    if errCounter + 1 > 100 then (.rethrown e, 1)
    else if EOperationStatus.NOT_FOUND = requiredStatus then (.returned .NOT_FOUND, 1)
    else if pendingCounter + 1 > 1000 then (.timedOut, 1)
    else
      ((awaitFrom requiredStatus (errCounter + 1) (pendingCounter + 1) rest).1,
       (awaitFrom requiredStatus (errCounter + 1) (pendingCounter + 1) rest).2 + 1)
  | errCounter, pendingCounter, .ok s :: rest =>
    if s = requiredStatus then (.returned s, 1)
    else if pendingCounter + 1 > 1000 then (.timedOut, 1)
    else
      ((awaitFrom requiredStatus errCounter (pendingCounter + 1) rest).1,
       (awaitFrom requiredStatus errCounter (pendingCounter + 1) rest).2 + 1)

/-- `awaitRequiredOperationStatus` run from the initial counters
(`errCounter = 0`, `pendingCounter = 0`). -/
def awaitRequiredOperationStatus (requiredStatus : EOperationStatus) (trace : List LookupOutcome) : AwaitResult × Nat :=
  awaitFrom requiredStatus 0 0 trace

/-- Number of failed lookups in a trace. -/
def countErrs : List LookupOutcome → Nat
  | [] => 0
  | .err _ :: rest => countErrs rest + 1
  | .ok _ :: rest => countErrs rest

/-- Length of the run of failed lookups at the head of a trace. -/
def leadingErrs : List LookupOutcome → Nat
  | .err _ :: rest => leadingErrs rest + 1
  | _ => 0

/-- Longest run of consecutive failed lookups anywhere in a trace. -/
def maxConsecutiveErrs : List LookupOutcome → Nat
  | [] => 0
  | o :: rest => max (leadingErrs (o :: rest)) (maxConsecutiveErrs rest)

/-- An account record (`IAccount`).  Every field may be `null`/`undefined`
in the source, hence `Option String`. -/
structure IAccount where
  address : Option String
  publicKey : Option String
  privateKey : Option String
  randomEntropy : Option String
deriving DecidableEq, Repr

/-- `ISignature`: the two textual encodings of a signature. -/
structure ISignature where
  hex : String
  base58Encoded : String
deriving DecidableEq, Repr

/-- Errors thrown by the wallet code (`throw new Error(...)` sites in
`WalletClient.ts`), one constructor per distinct throw site. -/
inductive WErr
  | tooManyAccounts (n : Nat)
  | decodeError (s : String)
  | missingKeyMaterial
  | publicKeyMismatch
  | addressMismatch
  | noPrivateKey
  | noPublicKey
  | invalidSignatureLength (n : Nat)
  | signatureVerificationFailed
deriving DecidableEq, Repr

/-- The external cryptographic collaborators used by `WalletClient.ts`
(base-58 codec from `Xbqcrypto`, blake3, and the noble secp256k1 schnorr
primitives).  They are opaque deterministic byte functions to the wallet
code; `base58Decode` is fallible (it throws on malformed input). -/
structure Crypto where
  base58Decode : String → Option (List Nat)
  base58Encode : List Nat → String
  getPublicKey : List Nat → List Nat
  hashToPrivateKey : List Nat → List Nat
  hashBlake3 : List Nat → List Nat
  varintEncode : Nat → List Nat
  bytesToHex : List Nat → String
  signSync : List Nat → List Nat → List Nat
  verifySync : List Nat → List Nat → List Nat → Bool

/-- `VERSION_NUMBER` constant of `WalletClient.ts`. -/
def VERSION_NUMBER : Nat := 0

/-- `ADDRESS_PRAEFIX` constant of `WalletClient.ts`. -/
def ADDRESS_PRAEFIX : String := "A"

/-- `MAX_WALLET_ACCOUNTS` constant of `WalletClient.ts`. -/
def MAX_WALLET_ACCOUNTS : Nat := 256

/-- JavaScript truthiness of an optional string field: `undefined`/`null`
and the empty string are falsy. -/
def truthy : Option String → Bool
  | none => false
  | some s => s != ""

/-- The address derivation appearing verbatim at each construction site:
`ADDRESS_PRAEFIX + base58Encode(Buffer.concat([varintEncode(VERSION_NUMBER), hashBlake3(publicKey)]))`. -/
def deriveAddress (c : Crypto) (publicKey : List Nat) : String :=
  ADDRESS_PRAEFIX ++ c.base58Encode (c.varintEncode VERSION_NUMBER ++ c.hashBlake3 publicKey)

/-- `toLowerCase`, modelled character-wise (the same function as
`String.toLower`, stated over the character list so that it evaluates in
the kernel; addresses are ASCII base-58 text, on which the two agree with
JavaScript `toLowerCase`). -/
def toLowerStr (s : String) : String := String.mk (s.data.map Char.toLower)

deriving instance DecidableEq for Except

/-- `WalletClient.getWalletAccountByAddress`: first wallet member whose
address matches case-insensitively.  (A member with an absent address never
matches; in the source such a member would make the lookup throw, but the
wallet code only ever stores members with a derived address.) -/
def getWalletAccountByAddress (wallet : List IAccount) (address : String) : Option IAccount :=
  wallet.find? (fun w => w.address.map toLowerStr == some (toLowerStr address))

/-- The loop body of `addPrivateKeysToWallet`, building `accountsToCreate`:
each key is base-58 decoded (an exception aborts the whole call), keys whose
derived address is already in `wallet` are skipped.  Note the skip check
consults only the wallet as it was when the call started. -/
def addPrivKeysLoop (c : Crypto) (wallet : List IAccount) : List String → Except WErr (List IAccount)
  | [] => .ok []
  | privateKey :: rest =>
    match c.base58Decode privateKey with
    | none => .error (.decodeError privateKey)
    | some privateKeyBase58Decoded =>
      let publicKey := c.getPublicKey privateKeyBase58Decoded
      let publicKeyBase58Encoded := c.base58Encode publicKey
      let addressBase58Encoded := deriveAddress c publicKey
      match addPrivKeysLoop c wallet rest with
      | .error e => .error e
      | .ok tail =>
        if (getWalletAccountByAddress wallet addressBase58Encoded).isNone then
          .ok ({ address := some addressBase58Encoded
                 publicKey := some publicKeyBase58Encoded
                 privateKey := some privateKey
                 randomEntropy := none } :: tail)
        else .ok tail

/-- `WalletClient.addPrivateKeysToWallet`.  Returns the thrown error or the
list of created accounts, paired with the wallet contents after the call:
the cap is checked against the input length before any processing, and
`this.wallet.push(...accountsToCreate)` runs only after the whole loop
succeeded, so on any throw the wallet is unchanged. -/
def addPrivateKeysToWallet (c : Crypto) (wallet : List IAccount) (privateKeys : List String) : Except WErr (List IAccount) × List IAccount :=
  if privateKeys.length > MAX_WALLET_ACCOUNTS then
    (.error (.tooManyAccounts privateKeys.length), wallet)
  else
    match addPrivKeysLoop c wallet privateKeys with
    | .error e => (.error e, wallet)
    | .ok accountsToCreate => (.ok accountsToCreate, wallet ++ accountsToCreate)

/-- The entropy branch of `addAccountsToWallet`: when `account.randomEntropy`
is truthy, decode it and derive a private key from it; the result is the
value of the local `privateKeyBase58Encoded` before the `||` fallback. -/
def entropyDerivedKey (c : Crypto) (account : IAccount) : Except WErr (Option String) :=
  if truthy account.randomEntropy then
    match c.base58Decode (account.randomEntropy.getD "") with
    | none => .error (.decodeError (account.randomEntropy.getD ""))
    | some base58DecodedRandomEntropy =>
      .ok (some (c.base58Encode (c.hashToPrivateKey base58DecodedRandomEntropy)))
  else .ok none

/-- One iteration of the `addAccountsToWallet` loop: validates and resolves
one submitted account, returning the created account, or `none` when the
derived address is already present (the skip case), or the thrown error.
The `privateKeyBase58Encoded || account.privateKey` fallback is JavaScript
truthiness, so an entropy-derived key takes precedence over a submitted
private key. -/
def processAccount (c : Crypto) (wallet : List IAccount) (account : IAccount) : Except WErr (Option IAccount) :=
  if !truthy account.randomEntropy && !truthy account.privateKey then
    .error .missingKeyMaterial
  else
    match entropyDerivedKey c account with
    | .error e => .error e
    | .ok pkFromEntropy =>
      let privateKeyBase58Encoded := if truthy pkFromEntropy then pkFromEntropy else account.privateKey
      match c.base58Decode (privateKeyBase58Encoded.getD "") with
      | none => .error (.decodeError (privateKeyBase58Encoded.getD ""))
      | some privateKeyBytes =>
        let publicKey := c.getPublicKey privateKeyBytes
        let publicKeyBase58Encoded := c.base58Encode publicKey
        if truthy account.publicKey && account.publicKey != some publicKeyBase58Encoded then
          .error .publicKeyMismatch
        else
          let addressBase58Encoded := deriveAddress c publicKey
          if truthy account.address && account.address != some addressBase58Encoded then
            .error .addressMismatch
          else if (getWalletAccountByAddress wallet addressBase58Encoded).isNone then
            .ok (some { address := some addressBase58Encoded
                        privateKey := privateKeyBase58Encoded
                        publicKey := some publicKeyBase58Encoded
                        randomEntropy := account.randomEntropy })
          else .ok none

/-- The `addAccountsToWallet` loop over the submitted batch, building
`accountsAdded` in input order; the first thrown error aborts the call. -/
def addAccountsLoop (c : Crypto) (wallet : List IAccount) : List IAccount → Except WErr (List IAccount)
  | [] => .ok []
  | account :: rest =>
    match processAccount c wallet account with
    | .error e => .error e
    | .ok oa =>
      match addAccountsLoop c wallet rest with
      | .error e => .error e
      | .ok tail => .ok (oa.toList ++ tail)

/-- `WalletClient.addAccountsToWallet`, with the same result/state pairing
as `addPrivateKeysToWallet`: the push into `this.wallet` happens only after
the loop, so a throw anywhere leaves the wallet unchanged. -/
def addAccountsToWallet (c : Crypto) (wallet : List IAccount) (accounts : List IAccount) : Except WErr (List IAccount) × List IAccount :=
  if accounts.length > MAX_WALLET_ACCOUNTS then
    (.error (.tooManyAccounts accounts.length), wallet)
  else
    match addAccountsLoop c wallet accounts with
    | .error e => (.error e, wallet)
    | .ok accountsAdded => (.ok accountsAdded, wallet ++ accountsAdded)

/-- The mutable state of a `WalletClient`: the account array and the
distinguished base account. -/
structure WalletState where
  wallet : List IAccount
  baseAccount : Option IAccount
deriving DecidableEq, Repr

/-- `getWalletAccountByAddress` applied to a possibly-absent address (the
source would throw on `undefined.toLowerCase()`; the wallet code only calls
it through accounts carrying an address). -/
def getWalletAccountByAddressOpt (wallet : List IAccount) (address : Option String) : Option IAccount :=
  match address with
  | none => none
  | some a => getWalletAccountByAddress wallet a

/-- `WalletClient.setBaseAccount`: when no member with the argument's
address exists, the argument is first added through `addAccountsToWallet`
and the first created account becomes base; otherwise `this.baseAccount`
is assigned the argument object itself. -/
def setBaseAccount (c : Crypto) (st : WalletState) (baseAccount : IAccount) : Except WErr WalletState :=
  match getWalletAccountByAddressOpt st.wallet baseAccount.address with
  | none =>
    match addAccountsToWallet c st.wallet [baseAccount] with
    | (.error e, _) => .error e
    | (.ok baseAccountAdded, w) => .ok { wallet := w, baseAccount := baseAccountAdded.head? }
  | some _ => .ok { st with baseAccount := some baseAccount }

/-- `WalletClient.cleanWallet`: `this.wallet.length = 0` empties the account
array and leaves `this.baseAccount` untouched. -/
def cleanWallet (st : WalletState) : WalletState :=
  { st with wallet := [] }

/-- One step of `removeAddressesFromWallet`: splice out the first member
whose address equals the given one (a case-sensitive comparison in the
source, unlike the lookup). -/
def removeFirstByAddress : List IAccount → String → List IAccount
  | [], _ => []
  | w :: rest, address =>
    if w.address == some address then rest else w :: removeFirstByAddress rest address

/-- `WalletClient.removeAddressesFromWallet` over the account array (the
base account pointer is not consulted or updated). -/
def removeAddressesFromWallet (wallet : List IAccount) (addresses : List String) : List IAccount :=
  addresses.foldl removeFirstByAddress wallet

/-- `WalletClient.walletSignMessage`: presence checks on both key fields,
blake3 digest of the payload bytes, schnorr signature, defensive length
check, self-verification, then the two encodings of the same signature
bytes. -/
def walletSignMessage (c : Crypto) (data : List Nat) (signer : IAccount) : Except WErr ISignature :=
  if !truthy signer.privateKey then .error .noPrivateKey
  else if !truthy signer.publicKey then .error .noPublicKey
  else
    match c.base58Decode (signer.privateKey.getD "") with
    | none => .error (.decodeError (signer.privateKey.getD ""))
    | some privateKeyBase58Decoded =>
      let messageHashDigest := c.hashBlake3 data
      let sig := c.signSync messageHashDigest privateKeyBase58Decoded
      if sig.length != 64 then .error (.invalidSignatureLength sig.length)
      else if truthy signer.publicKey then
        match c.base58Decode (signer.publicKey.getD "") with
        | none => .error (.decodeError (signer.publicKey.getD ""))
        | some publicKeyBase58Decoded =>
          if !c.verifySync sig messageHashDigest publicKeyBase58Decoded then
            .error .signatureVerificationFailed
          else .ok { hex := c.bytesToHex sig, base58Encoded := c.base58Encode sig }
      else .ok { hex := c.bytesToHex sig, base58Encoded := c.base58Encode sig }

/-- A concrete, trivially computable instance of the cryptographic
collaborators, used to evaluate the wallet code on closed inputs. -/
def testCrypto : Crypto where
  base58Decode := fun _ => some [0]
  base58Encode := fun _ => "b"
  getPublicKey := id
  hashToPrivateKey := id
  hashBlake3 := id
  varintEncode := fun _ => [0]
  bytesToHex := fun _ => "h"
  signSync := fun _ _ => List.replicate 64 0
  verifySync := fun _ _ _ => true

/-- The account `addPrivateKeysToWallet testCrypto` creates for any key
`k`: under `testCrypto` every key derives public key encoding `b` and
address `Ab`. -/
def kAccount : IAccount :=
  { address := some "Ab", publicKey := some "b", privateKey := some "k", randomEntropy := none }

/-- A wallet member used in the base-account scenarios. -/
def mAccount : IAccount :=
  { address := some "Ab", publicKey := some "b", privateKey := some "x", randomEntropy := none }

/-- An account with the same address as `mAccount` but different key
material: a distinct object. -/
def mPrimeAccount : IAccount :=
  { address := some "Ab", publicKey := some "b", privateKey := some "y", randomEntropy := none }

/-- A partial account supplying both a private key and entropy; under
`testCrypto` the entropy-derived key encodes to `b`, distinct from the
submitted key `p`. -/
def bothKeysAccount : IAccount :=
  { address := none, publicKey := none, privateKey := some "p", randomEntropy := some "e" }

/-- A partial account supplying only a private key. -/
def pAccount : IAccount :=
  { address := none, publicKey := none, privateKey := some "p", randomEntropy := none }

/-- A partial account with neither a private key nor entropy. -/
def emptyAccount : IAccount :=
  { address := none, publicKey := none, privateKey := none, randomEntropy := none }

/-- C1: `getOperationStatus` classifies a remote lookup result in strict
priority order: a missing or empty record list yields `NOT_FOUND`;
otherwise the first record yields `FINAL` when marked final, else
`INCLUDED_PENDING` when it lists a containing block, else
`AWAITING_INCLUSION` when marked in the pool, else `INCONSISTENT`. -/
theorem getOperationStatus_priority_classes (od : Option (List IOperationData)) :
    (getOperationStatus od = .NOT_FOUND ↔ od = none ∨ od = some []) ∧
    (getOperationStatus od = .FINAL ↔
      ∃ r rest, od = some (r :: rest) ∧ r.is_final = true) ∧
    (getOperationStatus od = .INCLUDED_PENDING ↔
      ∃ r rest, od = some (r :: rest) ∧ r.is_final = false ∧ r.in_blocks.length > 0) ∧
    (getOperationStatus od = .AWAITING_INCLUSION ↔
      ∃ r rest, od = some (r :: rest) ∧ r.is_final = false ∧ r.in_blocks = [] ∧ r.in_pool = true) ∧
    (getOperationStatus od = .INCONSISTENT ↔
      ∃ r rest, od = some (r :: rest) ∧ r.is_final = false ∧ r.in_blocks = [] ∧ r.in_pool = false) := by
  rcases od with _ | l
  · simp [getOperationStatus]
  · rcases l with _ | ⟨r, rest⟩
    · simp [getOperationStatus]
    · rcases r with ⟨fin, blocks, pool⟩
      cases fin <;> cases pool <;> rcases blocks with _ | ⟨b, bs⟩ <;>
        simp [getOperationStatus]

/-- Helper for the transient-error budget: if the loop re-raises a lookup
error, the consumed prefix of the trace holds exactly `101 - errCounter`
failed lookups and ends with the re-raised failure. -/
theorem awaitFrom_rethrown_spec (req : EOperationStatus) :
    ∀ (t : List LookupOutcome) (errC pendC e n : Nat),
      errC ≤ 100 →
      awaitFrom req errC pendC t = (.rethrown e, n) →
      errC + countErrs (t.take n) = 101 ∧
      ∃ pre, t.take n = pre ++ [LookupOutcome.err e] := by
  intro t
  induction t with
  | nil =>
    intro errC pendC e n hle h
    simp [awaitFrom] at h
  | cons o rest ih =>
    intro errC pendC e n hle h
    cases o with
    | err x =>
      simp only [awaitFrom] at h
      by_cases h1 : errC + 1 > 100
      · rw [if_pos h1] at h
        rw [Prod.mk.injEq] at h
        obtain ⟨hx, hn⟩ := h
        injection hx with hx
        subst hx
        subst hn
        refine ⟨?_, [], by simp⟩
        simp only [List.take_succ_cons, List.take_zero, countErrs]
        omega
      · rw [if_neg h1] at h
        by_cases h2 : EOperationStatus.NOT_FOUND = req
        · rw [if_pos h2] at h
          simp at h
        · rw [if_neg h2] at h
          by_cases h3 : pendC + 1 > 1000
          · rw [if_pos h3] at h
            simp at h
          · rw [if_neg h3] at h
            rcases hr : awaitFrom req (errC + 1) (pendC + 1) rest with ⟨r1, r2⟩
            rw [hr] at h
            rw [Prod.mk.injEq] at h
            obtain ⟨hr1, hn⟩ := h
            subst hr1
            subst hn
            obtain ⟨hc, pre, hpre⟩ := ih (errC + 1) (pendC + 1) e r2 (by omega) hr
            refine ⟨?_, LookupOutcome.err x :: pre, ?_⟩
            · simp only [List.take_succ_cons, countErrs]
              omega
            · simp only [List.take_succ_cons, List.cons_append, hpre]
    | ok s =>
      simp only [awaitFrom] at h
      by_cases h1 : s = req
      · rw [if_pos h1] at h
        simp at h
      · rw [if_neg h1] at h
        by_cases h2 : pendC + 1 > 1000
        · rw [if_pos h2] at h
          simp at h
        · rw [if_neg h2] at h
          rcases hr : awaitFrom req errC (pendC + 1) rest with ⟨r1, r2⟩
          rw [hr] at h
          rw [Prod.mk.injEq] at h
          obtain ⟨hr1, hn⟩ := h
          subst hr1
          subst hn
          obtain ⟨hc, pre, hpre⟩ := ih errC (pendC + 1) e r2 hle hr
          refine ⟨?_, LookupOutcome.ok s :: pre, ?_⟩
          · simp only [List.take_succ_cons, countErrs]
            omega
          · simp only [List.take_succ_cons, List.cons_append, hpre]

/-- Helper for the pending budget: a timeout abort happens exactly when the
pending counter passes 1000, so the number of lookups attempted is
`1001 - pendingCounter`. -/
theorem awaitFrom_timedOut_spec (req : EOperationStatus) :
    ∀ (t : List LookupOutcome) (errC pendC n : Nat),
      pendC ≤ 1000 →
      awaitFrom req errC pendC t = (.timedOut, n) →
      pendC + n = 1001 := by
  intro t
  induction t with
  | nil =>
    intro errC pendC n hle h
    simp [awaitFrom] at h
  | cons o rest ih =>
    intro errC pendC n hle h
    cases o with
    | err x =>
      simp only [awaitFrom] at h
      by_cases h1 : errC + 1 > 100
      · rw [if_pos h1] at h
        simp at h
      · rw [if_neg h1] at h
        by_cases h2 : EOperationStatus.NOT_FOUND = req
        · rw [if_pos h2] at h
          simp at h
        · rw [if_neg h2] at h
          by_cases h3 : pendC + 1 > 1000
          · rw [if_pos h3] at h
            rw [Prod.mk.injEq] at h
            omega
          · rw [if_neg h3] at h
            rcases hr : awaitFrom req (errC + 1) (pendC + 1) rest with ⟨r1, r2⟩
            rw [hr] at h
            rw [Prod.mk.injEq] at h
            obtain ⟨hr1, hn⟩ := h
            subst hr1
            have := ih (errC + 1) (pendC + 1) r2 (by omega) hr
            omega
    | ok s =>
      simp only [awaitFrom] at h
      by_cases h1 : s = req
      · rw [if_pos h1] at h
        simp at h
      · rw [if_neg h1] at h
        by_cases h2 : pendC + 1 > 1000
        · rw [if_pos h2] at h
          rw [Prod.mk.injEq] at h
          omega
        · rw [if_neg h2] at h
          rcases hr : awaitFrom req errC (pendC + 1) rest with ⟨r1, r2⟩
          rw [hr] at h
          rw [Prod.mk.injEq] at h
          obtain ⟨hr1, hn⟩ := h
          subst hr1
          have := ih errC (pendC + 1) r2 (by omega) hr
          omega

/-- Helper for the `NOT_FOUND` target: a run that has seen only successful
non-matching lookups returns `NOT_FOUND` on the first iteration whose
lookup throws, because the caught exception leaves `status` at its
`NOT_FOUND` default and the target comparison still runs. -/
theorem awaitFrom_notFound_err_spec (e : Nat) (rest : List LookupOutcome) :
    ∀ (pre : List LookupOutcome) (pendC : Nat),
      (∀ o ∈ pre, ∃ s, o = LookupOutcome.ok s ∧ s ≠ EOperationStatus.NOT_FOUND) →
      pendC + pre.length ≤ 1000 →
      awaitFrom .NOT_FOUND 0 pendC (pre ++ LookupOutcome.err e :: rest) =
        (.returned .NOT_FOUND, pre.length + 1) := by
  intro pre
  induction pre with
  | nil =>
    intro pendC hpre hlen
    simp [awaitFrom]
  | cons o pre ih =>
    intro pendC hpre hlen
    obtain ⟨s, hs, hsne⟩ := hpre o (List.mem_cons_self o pre)
    subst hs
    simp only [List.length_cons] at hlen
    simp only [List.cons_append, awaitFrom]
    rw [if_neg hsne, if_neg (by omega : ¬pendC + 1 > 1000)]
    simp only [List.append_eq]
    rw [ih (pendC + 1) (fun o ho => hpre o (List.mem_cons_of_mem _ ho)) (by omega)]
    simp [List.length_cons]

/-- A trace whose longest run of consecutive lookup failures is 100, but
whose cumulative failure count is 101: one failure, one successful
non-matching lookup, then one hundred failures. -/
def c2Trace : List LookupOutcome :=
  .err 1 :: .ok .INCONSISTENT :: List.replicate 100 (.err 2)

set_option maxRecDepth 100000 in
/-- C2 counterexample: on `c2Trace` no point of the run ever sees more than
100 consecutive lookup failures (the successful lookup would reset the
count under the claim, keeping the budget at 100), yet
`awaitRequiredOperationStatus` aborts by re-raising the last lookup error:
the failure counter is cumulative, never reset by a successful lookup. -/
theorem awaitStatus_consecutive_failures_counterexample :
    maxConsecutiveErrs c2Trace ≤ 100 ∧
    countErrs c2Trace = 101 ∧
    awaitRequiredOperationStatus .FINAL c2Trace = (.rethrown 2, 102) := by
  decide

/-- C2 amended: the transient-error budget counts cumulative lookup
failures across the whole run (a successful lookup does not reset it);
whenever the loop aborts by re-raising a lookup error, the lookups
attempted up to that point contain exactly 101 failures and end with the
failure whose error is re-raised (so no further lookup is attempted). -/
theorem awaitStatus_cumulative_error_budget (req : EOperationStatus)
    (t : List LookupOutcome) (e n : Nat)
    (h : awaitRequiredOperationStatus req t = (.rethrown e, n)) :
    countErrs (t.take n) = 101 ∧ ∃ pre, t.take n = pre ++ [LookupOutcome.err e] := by
  have hs := awaitFrom_rethrown_spec req t 0 0 e n (by omega) h
  exact ⟨by omega, hs.2⟩

/-- A run of 101 straight lookup failures. -/
def c2wTrace : List LookupOutcome := List.replicate 101 (.err 3)

/-- Witness for the amended C2 theorem at a concrete trace: 101 straight
failures abort the loop on the 101st lookup. -/
theorem awaitStatus_cumulative_error_budget_witness :
    countErrs (c2wTrace.take 101) = 101 ∧
    ∃ pre, c2wTrace.take 101 = pre ++ [LookupOutcome.err 3] :=
  awaitStatus_cumulative_error_budget .FINAL c2wTrace 3 101 (by decide)

/-- A trace with one lookup failure followed by exactly 1000 successful
lookups that classify away from the target. -/
def c3Trace : List LookupOutcome :=
  .err 7 :: List.replicate 1000 (.ok .INCONSISTENT)

set_option maxRecDepth 100000 in
/-- C3 counterexample: `c3Trace` holds only 1000 successful non-matching
lookups, so under the claim the pending budget of 1000 is never exceeded;
yet the run aborts with the timeout error after 1001 iterations, because
the iteration whose lookup threw also incremented the pending counter. -/
theorem awaitStatus_pending_count_counterexample :
    (c3Trace.countP (fun o => match o with | .ok s => s != .FINAL | .err _ => false)) = 1000 ∧
    awaitRequiredOperationStatus .FINAL c3Trace = (.timedOut, 1001) := by
  decide

/-- C3 amended: the pending-iteration budget counts every iteration that
neither returns the target nor exhausts the error budget — including
iterations whose lookup throws — and a timeout abort happens exactly on
the 1001st such iteration. -/
theorem awaitStatus_pending_budget_every_iteration (req : EOperationStatus)
    (t : List LookupOutcome) (n : Nat)
    (h : awaitRequiredOperationStatus req t = (.timedOut, n)) : n = 1001 := by
  have hs := awaitFrom_timedOut_spec req t 0 0 n (by omega) h
  omega

/-- Two lookup failures followed by 999 successful non-matching lookups. -/
def c3wTrace : List LookupOutcome :=
  .err 9 :: .err 9 :: List.replicate 999 (.ok .AWAITING_INCLUSION)

set_option maxRecDepth 100000 in
/-- Witness for the amended C3 theorem at a concrete trace: the timeout
fires on iteration 1001 even though only 999 of the counted iterations had
successful lookups. -/
theorem awaitStatus_pending_budget_every_iteration_witness :
    awaitRequiredOperationStatus .FINAL c3wTrace = (.timedOut, 1001) ∧ (1001 : Nat) = 1001 :=
  ⟨by decide, awaitStatus_pending_budget_every_iteration .FINAL c3wTrace 1001 (by decide)⟩

/-- C4: with target status `NOT_FOUND`, the first iteration whose remote
lookup throws returns `NOT_FOUND` as a success on that same iteration
(provided the preceding successful lookups classified away from
`NOT_FOUND`, so the run is still going, and had not yet timed out): the
caught exception leaves `status` at its `NOT_FOUND` default and the target
comparison still runs. -/
theorem awaitStatus_notFound_target_throw_returns (pre : List LookupOutcome)
    (e : Nat) (rest : List LookupOutcome)
    (hpre : ∀ o ∈ pre, ∃ s, o = LookupOutcome.ok s ∧ s ≠ EOperationStatus.NOT_FOUND)
    (hlen : pre.length ≤ 1000) :
    awaitRequiredOperationStatus .NOT_FOUND (pre ++ LookupOutcome.err e :: rest) =
      (.returned .NOT_FOUND, pre.length + 1) :=
  awaitFrom_notFound_err_spec e rest pre 0 hpre (by omega)

/-- Witness for C4 at a concrete trace: one non-matching success, then a
throwing lookup; the call returns `NOT_FOUND` on the second iteration,
never reaching the third. -/
theorem awaitStatus_notFound_target_throw_returns_witness :
    awaitRequiredOperationStatus .NOT_FOUND
      [LookupOutcome.ok .FINAL, LookupOutcome.err 5, LookupOutcome.ok .FINAL] =
      (.returned .NOT_FOUND, 2) := by
  have h := awaitStatus_notFound_target_throw_returns [LookupOutcome.ok .FINAL] 5
    [LookupOutcome.ok .FINAL]
    (by
      intro o ho
      rw [List.mem_singleton] at ho
      subst ho
      exact ⟨.FINAL, rfl, by decide⟩)
    (by decide)
  simpa using h

/-- C9: a batch of more than 256 private keys is rejected with the
too-many-accounts error before any key is processed (the result does not
depend on the keys or the crypto primitives at all), and the wallet is
returned unchanged. -/
theorem addPrivateKeys_cap_exceeded (c : Crypto) (w : List IAccount)
    (keys : List String) (h : keys.length > 256) :
    addPrivateKeysToWallet c w keys = (.error (.tooManyAccounts keys.length), w) := by
  simp only [addPrivateKeysToWallet, MAX_WALLET_ACCOUNTS]
  rw [if_pos h]

/-- Witness for C9: 257 keys (even well-formed ones) are rejected and the
wallet stays empty. -/
theorem addPrivateKeys_cap_exceeded_witness :
    addPrivateKeysToWallet testCrypto [] (List.replicate 257 "k") =
      (.error (.tooManyAccounts 257), []) := by
  have h := addPrivateKeys_cap_exceeded testCrypto [] (List.replicate 257 "k")
    (by rw [List.length_replicate]; omega)
  rw [List.length_replicate] at h
  exact h

/-- Helper: every account the `addPrivateKeysToWallet` loop creates has an
address that was absent from the wallet as it was when the call started
(the only dedup check the loop performs). -/
theorem addPrivKeysLoop_fresh (c : Crypto) (wallet : List IAccount) :
    ∀ (keys : List String) (created : List IAccount),
      addPrivKeysLoop c wallet keys = .ok created →
      ∀ a ∈ created, ∀ addr, a.address = some addr →
        getWalletAccountByAddress wallet addr = none := by
  intro keys
  induction keys with
  | nil =>
    intro created h a ha addr haddr
    simp only [addPrivKeysLoop] at h
    injection h with h
    subst h
    exact absurd ha (List.not_mem_nil a)
  | cons pk rest ih =>
    intro created h a ha addr haddr
    simp only [addPrivKeysLoop] at h
    rcases hd : c.base58Decode pk with _ | pkb
    · simp only [hd] at h
      exact Except.noConfusion h
    · simp only [hd] at h
      rcases hr : addPrivKeysLoop c wallet rest with e | tail
      · simp only [hr] at h
        exact Except.noConfusion h
      · simp only [hr] at h
        by_cases hn : (getWalletAccountByAddress wallet
            (deriveAddress c (c.getPublicKey pkb))).isNone
        · rw [if_pos hn] at h
          injection h with h
          subst h
          rcases List.mem_cons.mp ha with rfl | hmem
          · simp only [Option.some.injEq] at haddr
            rw [← haddr]
            exact Option.isNone_iff_eq_none.mp hn
          · exact ih tail hr a hmem addr haddr
        · rw [if_neg hn] at h
          injection h with h
          subst h
          exact ih tail hr a ha addr haddr

/-- C5 counterexample: submitting the same private key twice in a single
call creates two wallet members with the same (case-insensitively compared)
address, because the skip check consults only the wallet as it was before
the call, while the created accounts are pushed only after the loop. -/
theorem addPrivateKeys_batch_duplicate_counterexample :
    (addPrivateKeysToWallet testCrypto [] ["k", "k"]).2 = [kAccount, kAccount] ∧
    ((addPrivateKeysToWallet testCrypto [] ["k", "k"]).2.countP
      (fun a => a.address.map toLowerStr == some (toLowerStr "Ab"))) = 2 := by
  decide

/-- C5 amended: deduplication is only performed against accounts already
present in the wallet when the call starts — every account a successful
call creates has an address absent (case-insensitively) from the prior
wallet, the created accounts are appended after the prior members and also
returned — but the same key twice within one call yields duplicate
members. -/
theorem addPrivateKeys_dedup_prior_wallet (c : Crypto) (w : List IAccount)
    (keys : List String) (created w2 : List IAccount)
    (h : addPrivateKeysToWallet c w keys = (.ok created, w2)) :
    w2 = w ++ created ∧
    ∀ a ∈ created, ∀ addr, a.address = some addr →
      getWalletAccountByAddress w addr = none := by
  simp only [addPrivateKeysToWallet] at h
  by_cases hlen : keys.length > MAX_WALLET_ACCOUNTS
  · rw [if_pos hlen] at h
    rw [Prod.mk.injEq] at h
    exact absurd h.1 (by simp)
  · rw [if_neg hlen] at h
    rcases hr : addPrivKeysLoop c w keys with e | l
    · simp only [hr] at h
      rw [Prod.mk.injEq] at h
      exact absurd h.1 (by simp)
    · simp only [hr] at h
      rw [Prod.mk.injEq] at h
      obtain ⟨h1, h2⟩ := h
      injection h1 with h1
      subst h1
      subst h2
      exact ⟨rfl, addPrivKeysLoop_fresh c w keys _ hr⟩

/-- Witness for the amended C5 theorem at a concrete call: one fresh key
into an empty wallet is appended and its address was absent before. -/
theorem addPrivateKeys_dedup_prior_wallet_witness :
    [kAccount] = [] ++ [kAccount] ∧
    ∀ a ∈ [kAccount], ∀ addr, a.address = some addr →
      getWalletAccountByAddress [] addr = none :=
  addPrivateKeys_dedup_prior_wallet testCrypto [] ["k"] [kAccount] [kAccount] (by decide)

/-- Helper: a batch containing an entry whose processing throws makes the
whole `addAccountsToWallet` loop throw. -/
theorem addAccountsLoop_error_of_mem (c : Crypto) (w : List IAccount) :
    ∀ (accounts : List IAccount),
      (∃ a ∈ accounts, ∃ e, processAccount c w a = .error e) →
      ∃ e, addAccountsLoop c w accounts = .error e := by
  intro accounts
  induction accounts with
  | nil =>
    rintro ⟨a, ha, _⟩
    exact absurd ha (List.not_mem_nil a)
  | cons a0 rest ih =>
    rintro ⟨a, ha, e, he⟩
    rcases hp : processAccount c w a0 with e0 | oa
    · exact ⟨e0, by simp only [addAccountsLoop, hp]⟩
    · rcases List.mem_cons.mp ha with rfl | hmem
      · rw [hp] at he
        exact absurd he (by simp)
      · obtain ⟨e2, he2⟩ := ih ⟨a, hmem, e, he⟩
        exact ⟨e2, by simp only [addAccountsLoop, hp, he2]⟩

/-- C10: `addAccountsToWallet` is atomic with respect to failure: whenever
the call throws, the wallet is left exactly as it was (the push happens
only after the loop), and a batch containing any entry that fails
validation (missing key material, malformed base-58 input, or a supplied
public key or address differing from the derived one) does throw, so no
account from that batch — earlier valid entries included — is added. -/
theorem addAccounts_failure_atomic (c : Crypto) (w : List IAccount)
    (accounts : List IAccount) :
    (∀ e w2, addAccountsToWallet c w accounts = (.error e, w2) → w2 = w) ∧
    ((∃ a ∈ accounts, ∃ e, processAccount c w a = .error e) →
      ∃ e, addAccountsToWallet c w accounts = (.error e, w)) := by
  constructor
  · intro e w2 h
    simp only [addAccountsToWallet] at h
    by_cases hlen : accounts.length > MAX_WALLET_ACCOUNTS
    · rw [if_pos hlen] at h
      rw [Prod.mk.injEq] at h
      exact h.2.symm
    · rw [if_neg hlen] at h
      rcases hr : addAccountsLoop c w accounts with e0 | l
      · simp only [hr] at h
        rw [Prod.mk.injEq] at h
        exact h.2.symm
      · simp only [hr] at h
        rw [Prod.mk.injEq] at h
        exact absurd h.1 (by simp)
  · intro hex
    simp only [addAccountsToWallet]
    by_cases hlen : accounts.length > MAX_WALLET_ACCOUNTS
    · rw [if_pos hlen]
      exact ⟨.tooManyAccounts accounts.length, rfl⟩
    · rw [if_neg hlen]
      obtain ⟨e2, he2⟩ := addAccountsLoop_error_of_mem c w accounts hex
      exact ⟨e2, by simp only [he2]⟩

/-- Witness for C10 at a concrete call: a batch whose second entry has no
key material throws and leaves a one-member wallet unchanged, although its
first entry was valid. -/
theorem addAccounts_failure_atomic_witness :
    ([mAccount] = [mAccount]) ∧
    (∃ e, addAccountsToWallet testCrypto [mAccount] [pAccount, emptyAccount] =
      (.error e, [mAccount])) :=
  ⟨(addAccounts_failure_atomic testCrypto [mAccount] [pAccount, emptyAccount]).1
      WErr.missingKeyMaterial [mAccount] (by decide),
   (addAccounts_failure_atomic testCrypto [mAccount] [pAccount, emptyAccount]).2
      ⟨emptyAccount, by decide, WErr.missingKeyMaterial, by decide⟩⟩

/-- Helper: the private key stored in an account that `processAccount`
successfully creates is the entropy-derived key when that one is truthy,
and the submitted private key otherwise — the JavaScript `||` fallback. -/
theorem processAccount_ok_privateKey (c : Crypto) (w : List IAccount)
    (a acc : IAccount) (h : processAccount c w a = .ok (some acc)) :
    ∃ pkFromEntropy, entropyDerivedKey c a = .ok pkFromEntropy ∧
      acc.privateKey = (if truthy pkFromEntropy then pkFromEntropy else a.privateKey) := by
  simp only [processAccount] at h
  split at h
  · exact absurd h (by simp)
  · rcases hek : entropyDerivedKey c a with e | pkFromEntropy
    · simp only [hek] at h
      exact Except.noConfusion h
    · simp only [hek] at h
      refine ⟨pkFromEntropy, rfl, ?_⟩
      rcases hd : c.base58Decode
          ((if truthy pkFromEntropy then pkFromEntropy else a.privateKey).getD "") with _ | pkb
      · simp only [hd] at h
        exact Except.noConfusion h
      · simp only [hd] at h
        split at h
        · exact absurd h (by simp)
        · split at h
          · exact absurd h (by simp)
          · split at h
            · injection h with h
              injection h with h
              subst h
              rfl
            · injection h with h
              exact Option.noConfusion h

/-- The account `processAccount testCrypto` derives from `bothKeysAccount`:
its stored private key is the entropy-derived `b`, not the submitted `p`. -/
def bothKeysResult : IAccount :=
  { address := some "Ab", publicKey := some "b", privateKey := some "b",
    randomEntropy := some "e" }

/-- C7 counterexample: for a partial account supplying both a private key
and entropy, the created account's private key is the entropy-derived one,
not the supplied private key — entropy takes precedence, so derivation from
`randomEntropy` is not restricted to the no-private-key case. -/
theorem addAccounts_entropy_precedence_counterexample :
    processAccount testCrypto [] bothKeysAccount = .ok (some bothKeysResult) ∧
    truthy bothKeysAccount.privateKey = true ∧
    bothKeysResult.privateKey ≠ bothKeysAccount.privateKey := by
  decide

/-- C7 amended: the resolved private key of a created account is the
supplied private key only when no (truthy) entropy is present; whenever
entropy is supplied and decodes, the key derived from it is used instead —
regardless of any supplied private key — as long as its encoding is
non-empty (the JavaScript `||` fallback). -/
theorem addAccounts_key_resolution (c : Crypto) (w : List IAccount)
    (a acc : IAccount) (h : processAccount c w a = .ok (some acc)) :
    (truthy a.randomEntropy = false → acc.privateKey = a.privateKey) ∧
    (∀ es bs, a.randomEntropy = some es → truthy a.randomEntropy = true →
      c.base58Decode es = some bs →
      c.base58Encode (c.hashToPrivateKey bs) ≠ "" →
      acc.privateKey = some (c.base58Encode (c.hashToPrivateKey bs))) := by
  obtain ⟨pkE, hek, hpk⟩ := processAccount_ok_privateKey c w a acc h
  constructor
  · intro hent
    rw [entropyDerivedKey, hent] at hek
    simp only [Bool.false_eq_true, if_false] at hek
    injection hek with hek
    rw [hpk, ← hek]
    simp [truthy]
  · intro es bs hes htr hdec hne
    rw [entropyDerivedKey, htr, if_pos rfl, hes] at hek
    simp only [Option.getD_some, hdec] at hek
    injection hek with hek
    rw [hpk, ← hek]
    have htt : truthy (some (c.base58Encode (c.hashToPrivateKey bs))) = true := by
      simp [truthy, hne]
    rw [if_pos htt]

/-- The account `processAccount testCrypto` derives from `pAccount`. -/
def pResult : IAccount :=
  { address := some "Ab", publicKey := some "b", privateKey := some "p",
    randomEntropy := none }

/-- Witness for the amended C7 theorem at a concrete call: with no entropy
supplied, the created account stores the submitted private key. -/
theorem addAccounts_key_resolution_witness :
    processAccount testCrypto [] pAccount = .ok (some pResult) ∧
    pResult.privateKey = pAccount.privateKey :=
  ⟨by decide,
   (addAccounts_key_resolution testCrypto [] pAccount pResult (by decide)).1 (by decide)⟩

/-- C6 counterexample: calling `setBaseAccount` with an object distinct
from — but sharing its address with — an existing member designates the
passed-in object, not the wallet's stored member, as base; the base account
is then not an element of the account sequence. -/
theorem setBaseAccount_stored_member_counterexample :
    setBaseAccount testCrypto { wallet := [mAccount], baseAccount := none } mPrimeAccount =
      .ok { wallet := [mAccount], baseAccount := some mPrimeAccount } ∧
    mPrimeAccount ≠ mAccount ∧
    mPrimeAccount ∉ [mAccount] := by
  decide

/-- C6 amended: `setBaseAccount` for an address already present in the
wallet designates the passed-in object itself as base and leaves the
account sequence unchanged (so a member with the base's address exists, but
the base need not be the stored member object; the membership invariant is
not maintained by the other mutators, which never touch the base
pointer). -/
theorem setBaseAccount_existing_member_uses_argument (c : Crypto)
    (st : WalletState) (a : IAccount) (addr : String)
    (ha : a.address = some addr)
    (hmem : (getWalletAccountByAddress st.wallet addr).isSome = true) :
    setBaseAccount c st a = .ok { st with baseAccount := some a } := by
  simp only [setBaseAccount, getWalletAccountByAddressOpt, ha]
  rcases hm : getWalletAccountByAddress st.wallet addr with _ | m
  · rw [hm] at hmem
    simp at hmem
  · simp only [hm]

/-- Witness for the amended C6 theorem at a concrete call. -/
theorem setBaseAccount_existing_member_uses_argument_witness :
    setBaseAccount testCrypto { wallet := [mAccount, kAccount], baseAccount := none } mAccount =
      .ok { wallet := [mAccount, kAccount], baseAccount := some mAccount } := by
  have h := setBaseAccount_existing_member_uses_argument testCrypto
    { wallet := [mAccount, kAccount], baseAccount := none } mAccount "Ab"
    (by decide) (by decide)
  simpa using h

/-- C8: `walletSignMessage` fails with the missing-key errors when either
key field is absent; any signature it returns is the pair of encodings
(hex and base-58) of one and the same signature byte sequence, whose length
is exactly 64 and which self-verifies against the account's public key; and
whenever the signing backend produces a 64-byte verifying signature for the
account's decodable keys, the call succeeds with exactly that signature. -/
theorem walletSignMessage_contract (c : Crypto) (data : List Nat) (signer : IAccount) :
    (truthy signer.privateKey = false →
      walletSignMessage c data signer = .error .noPrivateKey) ∧
    (truthy signer.privateKey = true → truthy signer.publicKey = false →
      walletSignMessage c data signer = .error .noPublicKey) ∧
    (∀ s, walletSignMessage c data signer = .ok s →
      ∃ kb pb, c.base58Decode (signer.privateKey.getD "") = some kb ∧
        c.base58Decode (signer.publicKey.getD "") = some pb ∧
        (c.signSync (c.hashBlake3 data) kb).length = 64 ∧
        c.verifySync (c.signSync (c.hashBlake3 data) kb) (c.hashBlake3 data) pb = true ∧
        s.hex = c.bytesToHex (c.signSync (c.hashBlake3 data) kb) ∧
        s.base58Encoded = c.base58Encode (c.signSync (c.hashBlake3 data) kb)) ∧
    (∀ kb pb, truthy signer.privateKey = true → truthy signer.publicKey = true →
      c.base58Decode (signer.privateKey.getD "") = some kb →
      c.base58Decode (signer.publicKey.getD "") = some pb →
      (c.signSync (c.hashBlake3 data) kb).length = 64 →
      c.verifySync (c.signSync (c.hashBlake3 data) kb) (c.hashBlake3 data) pb = true →
      walletSignMessage c data signer =
        .ok { hex := c.bytesToHex (c.signSync (c.hashBlake3 data) kb),
              base58Encoded := c.base58Encode (c.signSync (c.hashBlake3 data) kb) }) := by
  refine ⟨?_, ?_, ?_, ?_⟩
  · intro hp
    simp only [walletSignMessage, hp, Bool.not_false, if_true]
  · intro hp hq
    simp only [walletSignMessage, hp, hq, Bool.not_true, Bool.not_false, if_false, if_true]
    simp
  · intro s hs
    simp only [walletSignMessage] at hs
    cases htp : truthy signer.privateKey with
    | false =>
      rw [htp] at hs
      simp only [Bool.not_false, if_true] at hs
      exact Except.noConfusion hs
    | true =>
      rw [htp] at hs
      simp only [Bool.not_true, if_false] at hs
      cases htq : truthy signer.publicKey with
      | false =>
        rw [htq] at hs
        simp only [Bool.not_false, if_true] at hs
        exact Except.noConfusion hs
      | true =>
        rw [htq] at hs
        simp only [Bool.not_true, if_false] at hs
        rcases hkd : c.base58Decode (signer.privateKey.getD "") with _ | kb
        · simp only [hkd] at hs
          exact Except.noConfusion hs
        · simp only [hkd] at hs
          cases hlen : ((c.signSync (c.hashBlake3 data) kb).length != 64) with
          | true =>
            rw [hlen] at hs
            simp only [if_true] at hs
            exact Except.noConfusion hs
          | false =>
            rw [hlen] at hs
            rcases hpd : c.base58Decode (signer.publicKey.getD "") with _ | pb
            · simp only [hpd] at hs
              exact Except.noConfusion hs
            · simp only [hpd] at hs
              cases hv : c.verifySync (c.signSync (c.hashBlake3 data) kb) (c.hashBlake3 data) pb with
              | false =>
                rw [hv] at hs
                simp only [Bool.not_false, if_true] at hs
                exact Except.noConfusion hs
              | true =>
                rw [hv] at hs
                simp only [Bool.not_true, if_false] at hs
                injection hs with hs
                refine ⟨kb, pb, rfl, rfl, by simpa using hlen, hv, ?_, ?_⟩
                · rw [← hs]
                · rw [← hs]
  · intro kb pb htp htq hkd hpd hsl hv
    simp only [walletSignMessage, htp, htq, hkd, hpd, hsl, hv, Bool.not_true, if_false,
      if_true, bne_self_eq_false]
    simp

/-- Witness for C8 at a concrete account and payload: both key fields are
present, the backend signature is 64 bytes and verifies, and the call
returns its two encodings. -/
theorem walletSignMessage_contract_witness :
    walletSignMessage testCrypto [1, 2] kAccount =
      .ok { hex := "h", base58Encoded := "b" } := by
  have h := (walletSignMessage_contract testCrypto [1, 2] kAccount).2.2.2 [0] [0]
    (by decide) (by decide) (by decide) (by decide) (by decide) (by decide)
  exact h
